import Mathlib

/-!
Verification of the streaming action-protocol engine of the code-developer-ai
repository.  Buffers of streamed assistant text are modelled as `List Char`;
the functions below are shallow embeddings of the TypeScript code in
`src/components/PromptEditor.tsx`, the AI provider services
(`google-genai.ts` / `deepseek.ts` / `ai-provider.ts`), the server-side tools
module and the zustand store.  External library calls (JSON.parse, fetch, the
WebContainer sandbox) are modelled as explicit parameters or outcome sum
types.
-/

namespace CodeDev

/-- The action-open marker appearing in `parseActionsFromChunk`
(PromptEditor.tsx line 319). -/
def openMarker : List Char := "<x-system-action>".toList

/-- The action-close marker (PromptEditor.tsx line 319). -/
def closeMarker : List Char := "</x-system-action>".toList

/-- Model of JS `String.prototype.includes`: `n` occurs as a contiguous
substring of the buffer. -/
def containsSub (n : List Char) : List Char → Bool
  | [] => n.isEmpty
  | c :: rest => n.isPrefixOf (c :: rest) || containsSub n rest

/-- Model of JS `String.prototype.indexOf`: the index of the first occurrence
of `n`, `none` when absent (JS returns -1; every use in the source is guarded
by `includes`). -/
def idxOfSub (n : List Char) : List Char → Option Nat
  | [] => if n.isEmpty then some 0 else none
  | c :: rest =>
    if n.isPrefixOf (c :: rest) then some 0
    else (idxOfSub n rest).map (· + 1)

/-- Split a buffer at the first occurrence of `n`: returns the text before the
occurrence and the text after it, with the occurrence itself removed. -/
def splitFirst (n : List Char) : List Char → Option (List Char × List Char)
  | [] => if n.isEmpty then some ([], []) else none
  | c :: rest =>
    if n.isPrefixOf (c :: rest) then some ([], (c :: rest).drop n.length)
    else (splitFirst n rest).map (fun p => (c :: p.1, p.2))

/-- Fuelled scanner for the global non-greedy regex
`/<x-system-action>([\s\S]*?)<\/x-system-action>/g` used by
`parseActionsFromChunk` (PromptEditor.tsx lines 328 and 364): it walks the
buffer left to right, and at each open marker followed (lazily) by a close
marker it records the enclosed payload and resumes after the close marker.
Returns the payload list (the `match` results with their markers stripped,
line 332) and the buffer with every complete block removed (the `replaceAll`
result, line 364).  The fuel argument only drives structural recursion; it is
never exhausted when it starts at the buffer length. -/
def scanBlocksF : Nat → List Char → List (List Char) × List Char
  | 0, s => ([], s)
  | fuel + 1, s =>
    match splitFirst openMarker s with
    | none => ([], s)
    | some pa =>
      match splitFirst closeMarker pa.2 with
      | none => ([], s)
      | some pb =>
        let r := scanBlocksF fuel pb.2
        (pb.1 :: r.1, pa.1 ++ r.2)

/-- The block scanner at its canonical fuel. -/
def scanBlocks (s : List Char) : List (List Char) × List Char :=
  scanBlocksF s.length s

/-- Payloads of all complete action blocks, in source order. -/
def extractPayloads (s : List Char) : List (List Char) := (scanBlocks s).1

/-- The buffer with all complete action blocks removed
(`summedChunk.replaceAll(regex, '')`, PromptEditor.tsx line 364). -/
def stripBlocks (s : List Char) : List Char := (scanBlocks s).2

/-- The display text computed by `parseActionsFromChunk`
(PromptEditor.tsx lines 317-365): when the buffer contains an open marker but
no close marker, the code takes `startIndex = indexOf(open)` and returns
`summedChunk.substring(startIndex)` when `startIndex` is truthy (non-zero) and
the whole buffer otherwise; in every other case it returns the buffer with all
complete blocks stripped. -/
def displayedText (summedChunk : List Char) : List Char :=
  if containsSub openMarker summedChunk && !containsSub closeMarker summedChunk then
    let startIndex := (idxOfSub openMarker summedChunk).getD 0
    if startIndex ≠ 0 then summedChunk.drop startIndex else summedChunk
  else
    stripBlocks summedChunk

/-- A buffer consisting of complete action blocks interleaved with prose:
`prose_0 ++ open ++ payload_0 ++ close ++ prose_1 ++ ... ++ tail`. -/
def buildBuffer : List (List Char × List Char) → List Char → List Char
  | [], tail => tail
  | (prose, payload) :: rest, tail =>
    prose ++ openMarker ++ payload ++ closeMarker ++ buildBuffer rest tail

/-- Lifecycle status recorded by the local action ledger
(`LocalActionType.status`, PromptEditor.tsx lines 23-26). -/
inductive ActStatus where
  | pending
  | inProgress
  | success
  | error
deriving DecidableEq

/-- What `addLocalAction` / `updateLocalAction` store per action id that the
protocol logic later reads back: the lifecycle status and the immediate flag
(PromptEditor.tsx lines 49-55). -/
structure LedgerEntry where
  status : ActStatus
  immediate : Bool
deriving DecidableEq

/-- The ledger `localActions : Record<string, LocalActionType>`
(PromptEditor.tsx line 38), modelled as an association list in property
insertion order, matching JS string-keyed object semantics. -/
abbrev Ledger := List (String × LedgerEntry)

/-- Property read `localActions[id]`. -/
def ledgerGet (l : Ledger) (id : String) : Option LedgerEntry :=
  (l.find? (fun p => p.1 == id)).map Prod.snd

/-- Property write `localActions[id] = entry`: overwrite in place when the
key exists, append otherwise. -/
def ledgerSet (l : Ledger) (id : String) (e : LedgerEntry) : Ledger :=
  if l.any (fun p => p.1 == id) then
    l.map (fun p => if p.1 == id then (id, e) else p)
  else l ++ [(id, e)]

/-- A decoded action: the result of `JSON.parse` on a block payload, keeping
the fields the dispatch logic itself reads (`id`, `action`, `immediate`);
kind-specific payload fields are consumed only inside the handlers. -/
structure ActionT where
  id : String
  kind : String
  immediate : Bool
deriving DecidableEq

/-- The action kinds with a handler in the `switch` of
`parseActionsFromChunk` (PromptEditor.tsx lines 340-358); any other kind only
logs a warning and dispatches nothing. -/
def knownKinds : List String :=
  ["create_file", "write_file", "run_command", "read_file",
   "read_file_and_send_to_ai_chat_session"]

/-- The dedup guard (PromptEditor.tsx lines 335-337): an occurrence is
processed only when its id is absent from the ledger or still `pending`. -/
def shouldDispatch (l : Ledger) (a : ActionT) : Bool :=
  match ledgerGet l a.id with
  | some e => e.status == ActStatus.pending
  | none => true

/-- The `forEach` dispatch loop over the decoded actions
(PromptEditor.tsx lines 330-362): returns the updated ledger and the actions
whose handler was invoked, in source order.  An invoked handler synchronously
records its action as `in-progress` via `addLocalAction` before its first
await (each handler body starts with that call, e.g. lines 367-374, 563-570),
which is why a duplicate id later in the same buffer is already non-pending. -/
def dispatchActions (l : Ledger) : List ActionT → Ledger × List ActionT
  | [] => (l, [])
  | a :: rest =>
    if shouldDispatch l a then
      if knownKinds.contains a.kind then
        let r := dispatchActions
          (ledgerSet l a.id ⟨ActStatus.inProgress, a.immediate⟩) rest
        (r.1, a :: r.2)
      else dispatchActions l rest
    else dispatchActions l rest

/-- Result of one call of `parseActionsFromChunk`: the ledger after the
synchronous part of the dispatches, the dispatched actions in order, and the
returned display text. -/
structure ParseOutcome where
  ledger : Ledger
  dispatched : List ActionT
  display : List Char
deriving DecidableEq

/-- Shallow embedding of `parseActionsFromChunk`
(PromptEditor.tsx lines 317-365).  `decode` stands for `JSON.parse` composed
with the field reads; a `none` result models the `catch` branch that logs and
skips a malformed payload (lines 359-361).  When the buffer contains an open
marker and no close marker, nothing is dispatched and the truncation branch
of `displayedText` is returned; otherwise every complete block is decoded and
dispatched in source order and the stripped text is returned. -/
def parseActionsFromChunk (decode : List Char → Option ActionT) (l : Ledger)
    (summedChunk : List Char) : ParseOutcome :=
  if containsSub openMarker summedChunk && !containsSub closeMarker summedChunk then
    ⟨l, [], displayedText summedChunk⟩
  else
    ⟨(dispatchActions l ((extractPayloads summedChunk).filterMap decode)).1,
     (dispatchActions l ((extractPayloads summedChunk).filterMap decode)).2,
     displayedText summedChunk⟩

/-- Concrete decoder used by witnesses: two fixed payloads decode to fixed
actions, everything else fails to parse (as `JSON.parse` would throw). -/
def witnessDecode : List Char → Option ActionT := fun s =>
  if s = "P1".toList then some ⟨"a1", "write_file", false⟩
  else if s = "P2".toList then some ⟨"a2", "run_command", false⟩
  else none

/-- Per-chunk cleaning in the stream read loops
(PromptEditor.tsx lines 205-207 and 285-287): JS
`chunk.replace(s, '')` removes only the FIRST occurrence of `s` in the
individual chunk. -/
def removeFirstOcc (n s : List Char) : List Char :=
  match splitFirst n s with
  | some p => p.1 ++ p.2
  | none => s

/-- `chunk.replace('data: ', '').replace("data:", "")` applied to one chunk. -/
def cleanChunk (c : List Char) : List Char :=
  removeFirstOcc "data:".toList (removeFirstOcc "data: ".toList c)

/-- The read loop of `handleSendMessage` / `handleActionSendMessage`
(PromptEditor.tsx lines 199-218 and 279-298): each arriving chunk is cleaned,
appended to `chunkSum`, and the stored message content is overwritten with
the parse display of the accumulated buffer.  Returns the final
`(chunkSum, content)` pair. -/
def streamReadLoop : List (List Char) → List Char → List Char → List Char × List Char
  | [], acc, content => (acc, content)
  | c :: rest, acc, _ =>
    streamReadLoop rest (acc ++ cleanChunk c) (displayedText (acc ++ cleanChunk c))

/-- Events delivered through the streaming callbacks of
`getChatCompletionStream`: `onChunk`, `onError`, `onEnd`. -/
inductive StreamEvent where
  | chunk (text : String)
  | errorEvent (message : String)
  | ended
deriving DecidableEq

/-- A chat message as passed to the provider services. -/
structure ChatMsg where
  role : String
  content : String
deriving DecidableEq

/-- Shallow embedding of `DeepSeekService.getChatCompletionStream`
(deepseek service, lines 1060-1089 of the services file): the request body is
assembled but no request is ever made; the function then invokes the
callbacks unconditionally and in order: `onChunk("test")`,
`onError(new Error("Invalid Error"))`, `onEnd()`.  The returned trace lists
the callback invocations in order. -/
def deepseekGetChatCompletionStream (messages : List ChatMsg)
    (options : List (String × String)) : List StreamEvent :=
  [StreamEvent.chunk "test", StreamEvent.errorEvent "Invalid Error",
   StreamEvent.ended]

/-- One streamed chunk from the Google SDK: an optional function-call part
and an optional text part (google service, lines 315-334). -/
structure GoogleChunk where
  functionCallName : Option String
  text : Option String
deriving DecidableEq

/-- Outcome of the underlying `generateContentStream` call. -/
inductive GoogleStreamOutcome where
  | success (chunks : List GoogleChunk)
  | failure (apiKeyInvalid : Bool) (message : String)
deriving DecidableEq

/-- Shallow embedding of `GoogleGenAIService.getChatCompletionStream`
(google service, lines 247-345): on success every text part is forwarded via
`onChunk` and `onEnd` is invoked once after the loop; on a thrown error the
catch block invokes `onError` — TWICE when the message mentions an invalid
API key, because the first `onError` call is not followed by a return
(lines 336-344).  The side-channel `toolCall` callback is not part of the
terminal-callback trace modelled here. -/
def googleGetChatCompletionStream (outcome : GoogleStreamOutcome) :
    List StreamEvent :=
  match outcome with
  | .success chunks =>
      (chunks.filterMap (fun c => c.text)).map StreamEvent.chunk
        ++ [StreamEvent.ended]
  | .failure apiKeyInvalid msg =>
      (if apiKeyInvalid then
        [StreamEvent.errorEvent "Google AI API key is invalid or missing."]
      else []) ++ [StreamEvent.errorEvent ("Google AI Error: " ++ msg)]

/-- Outcome of the sandbox interaction of `runCommandAction`
(PromptEditor.tsx lines 563-657): either the spawn succeeds and the process
exits with a code, or some step throws (for example the WebContainer not
being initialized, or the spawn itself failing). -/
inductive SpawnOutcome where
  | ok (output : String) (exitCode : Nat)
  | thrown (message : String)
deriving DecidableEq

/-- The fields of the JSON object passed to `addActionResponseToMessages`
that its re-entry decision reads.  `isCommandOutput` is an `Option` because
the catch branch of `runCommandAction` passes an object without that field
(PromptEditor.tsx lines 648-653), whereas the success branch sets it to true
(lines 619-627). -/
structure ActionMsg where
  success : Bool
  isCommandOutput : Option Bool
deriving DecidableEq

/-- The message `runCommandAction` forwards for each outcome. -/
def runCommandMessage : SpawnOutcome → ActionMsg
  | .ok _ _ => ⟨true, some true⟩
  | .thrown _ => ⟨false, none⟩

/-- The `isCommandOutput` recorded in the ledger by `updateLocalAction` in
`runCommandAction`: true on BOTH paths (PromptEditor.tsx lines 611-616 and
639-644). -/
def runCommandLedgerIsCommandOutput : SpawnOutcome → Bool
  | .ok _ _ => true
  | .thrown _ => true

/-- The terminal status `runCommandAction` records for the action. -/
def runCommandStatus : SpawnOutcome → ActStatus
  | .ok _ _ => ActStatus.success
  | .thrown _ => ActStatus.error

/-- Re-entry decision of `addActionResponseToMessages`
(PromptEditor.tsx lines 134-143): a new completion request is triggered iff
the ledger's `immediate` flag for the action is set or the parsed message
carries a truthy `isCommandOutput` (an absent field is `undefined`, falsy). -/
def reentryTriggered (ledgerImmediate : Bool) (msg : ActionMsg) : Bool :=
  ledgerImmediate || msg.isCommandOutput.getD false

/-- Per-conversation view of the chat component state read and written by the
send functions: `isChatLoading`, the number of response streams currently
being read, and the number of completion requests issued so far. -/
structure ConvState where
  chatLoading : Bool
  activeStreams : Nat
  requestsStarted : Nat
deriving DecidableEq

/-- `handleSendMessage` (PromptEditor.tsx lines 149-235): returns unchanged
when the input is empty or `isChatLoading` is set (line 151); otherwise it
issues the fetch (line 160) and — once response headers arrive — clears
`isChatLoading` again (line 181) BEFORE entering the read loop, so the flag
is already false while the stream is being read. -/
def userSendRequest (hasInput : Bool) (s : ConvState) : ConvState :=
  if !hasInput || s.chatLoading then s
  else
    { chatLoading := false,
      activeStreams := s.activeStreams + 1,
      requestsStarted := s.requestsStarted + 1 }

/-- `handleActionSendMessage` (PromptEditor.tsx lines 237-315) issues its
fetch (line 240) unconditionally: it consults no busy flag and does not wait
for any stream in progress. -/
def reentrySendRequest (s : ConvState) : ConvState :=
  { s with activeStreams := s.activeStreams + 1,
           requestsStarted := s.requestsStarted + 1 }

/-- Resolution of an action while its carrying stream is still being read
(`addActionResponseToMessages`, PromptEditor.tsx lines 134-143): when the
re-entry condition holds, `handleActionSendMessage` is invoked at once. -/
def actionResolved (ledgerImmediate : Bool) (msg : ActionMsg) (s : ConvState) :
    ConvState :=
  if reentryTriggered ledgerImmediate msg then reentrySendRequest s else s

/-- End of a read loop (`done` break plus the `finally` that clears
`isChatLoading`, PromptEditor.tsx lines 204 and 228-234). -/
def streamFinished (s : ConvState) : ConvState :=
  { s with activeStreams := s.activeStreams - 1, chatLoading := false }

/-- JS `Map<string,string>` in insertion order: `set` overwrites in place
when the key exists and appends otherwise; `keys()` iterates in insertion
order.  Models the provider services' `contextCache`. -/
def mapSet (m : List (String × String)) (k v : String) : List (String × String) :=
  if m.any (fun p => p.1 == k) then
    m.map (fun p => if p.1 == k then (k, v) else p)
  else m ++ [(k, v)]

/-- `Map.get`. -/
def mapGet (m : List (String × String)) (k : String) : Option String :=
  (m.find? (fun p => p.1 == k)).map Prod.snd

/-- JS `String.prototype.startsWith`, modelled over the character lists. -/
def startsWithStr (pre s : String) : Bool := pre.toList.isPrefixOf s.toList

/-- `generateProjectStructure` stores the prompt under the key
`"project:" + prompt.substring(0, 50)` (google service lines 384-386,
deepseek service lines 1142-1144). -/
def projectCacheKey (prompt : String) : String :=
  "project:" ++ String.mk (prompt.toList.take 50)

/-- The cache write performed by `generateProjectStructure`. -/
def cacheProjectPrompt (m : List (String × String)) (prompt : String) :
    List (String × String) :=
  mapSet m (projectCacheKey prompt) prompt

/-- The context retrieval of `generateFileContent`
(google service lines 559-568, deepseek service lines 1302-1311): filter the
Map keys to those starting with "project:" and take `contextKeys[0]` — the
FIRST entry in the Map's insertion order — falling back to the empty
string. -/
def retrieveProjectContext (m : List (String × String)) : String :=
  match (m.map Prod.fst).filter (fun k => startsWithStr "project:" k) with
  | [] => ""
  | k :: _ => (mapGet m k).getD ""

/-- Outcome of the `fetch('/api/ai')` interaction inside the store's
`generateFileContent` (store lines 181-234), one constructor per code path:
non-ok response whose JSON body has an `error` field, non-ok with JSON body
lacking it, non-ok with a non-JSON body, ok response whose body fails to
parse, ok response missing the `content` field, ok response with content,
and a thrown fetch/network error. -/
inductive GenOutcome where
  | httpErrorJsonError (errorField : String)
  | httpErrorJsonNoError (statusText : String)
  | httpErrorBodyNotJson (statusText : String)
  | okBodyNotJson (parseMessage : String)
  | okMissingContent
  | okContent (content : String)
  | fetchThrow (message : String)
deriving DecidableEq

/-- The comment text returned by the store's catch branch (store line 232). -/
def genErrorComment (filePath message : String) : String :=
  "// Error generating content for " ++ filePath ++ "\n// " ++ message ++ "\n"

/-- Shallow embedding of the store's `generateFileContent`
(store lines 181-234): every failure path throws internally, is caught by the
surrounding try/catch, and resolves with comment text; only an ok response
carrying a `content` field returns that content. -/
def storeGenerateFileContent (filePath : String) (o : GenOutcome) : String :=
  match o with
  | .okContent content => content
  | .httpErrorJsonError e => genErrorComment filePath e
  | .httpErrorJsonNoError _ =>
      genErrorComment filePath ("Failed to generate file content for " ++ filePath)
  | .httpErrorBodyNotJson statusText =>
      genErrorComment filePath
        ("Failed to generate file content for " ++ filePath ++ ": " ++ statusText)
  | .okBodyNotJson parseMessage => genErrorComment filePath parseMessage
  | .okMissingContent =>
      genErrorComment filePath
        ("Invalid response from AI service: missing content for " ++ filePath)
  | .fetchThrow message => genErrorComment filePath message

/-- Decision taken by the server-side `readFileTool` (file-tools module,
lines 19-63) before any filesystem call.  Paths are modelled as segment
lists; the workspace root is the segment path of `process.cwd()`. -/
inductive ToolDecision where
  | deniedTraversal
  | deniedSensitive
  | readCall (abs : List String)
deriving DecidableEq

/-- `path.resolve(WORKSPACE_ROOT, relativePath)` on segment lists: `..` pops
the last segment (never above the filesystem root, the empty list), `.` and
empty segments are dropped, other segments are appended. -/
def resolveSegs (root rel : List String) : List String :=
  rel.foldl (fun acc seg =>
    if seg = ".." then acc.dropLast
    else if seg = "." ∨ seg = "" then acc
    else acc ++ [seg]) root

/-- Render a segment path as an absolute, "/"-separated path string. -/
def joinPath (segs : List String) : String :=
  segs.foldl (fun acc s => acc ++ "/" ++ s) ""

/-- JS `String.prototype.includes` over strings. -/
def containsStr (n h : String) : Bool := containsSub n.toList h.toList

/-- The sensitive-directory check (file-tools lines 35-39):
`relativePath.includes("node_modules") || includes(".git") ||
includes(".next")`.  The needles contain no path separator, so the check on
the joined relative path equals a per-segment check; the per-segment form is
used here. -/
def sensitiveRel (rel : List String) : Bool :=
  rel.any (fun seg =>
    containsStr "node_modules" seg || containsStr ".git" seg
      || containsStr ".next" seg)

/-- Shallow embedding of `readFileTool` (file-tools lines 19-63): resolve the
path, reject when the resolved absolute path string does not start with the
workspace root (line 24), then reject sensitive directories (lines 35-47),
and only then call `fs.readFile` (line 49). -/
def readFileTool (root rel : List String) : ToolDecision :=
  if startsWithStr (joinPath root) (joinPath (resolveSegs root rel)) = false then
    ToolDecision.deniedTraversal
  else if sensitiveRel rel then ToolDecision.deniedSensitive
  else ToolDecision.readCall (resolveSegs root rel)

/-- Effect of the client-side dispatcher handler `readFileAction`
(PromptEditor.tsx lines 429-492): after checking that the WebContainer is
initialized and that `file_path` is present, it calls
`webcontainerInstance.fs.readFile(filePath)` with the path exactly as
decoded — no validation of any kind. -/
inductive DispatchEffect where
  | sandboxRead (path : String)
  | failedNotInitialized
  | failedNoPath
deriving DecidableEq

/-- The sandbox interaction performed by `readFileAction`. -/
def readFileActionEffect (webcontainerReady : Bool) (filePath : Option String) :
    DispatchEffect :=
  if !webcontainerReady then DispatchEffect.failedNotInitialized
  else
    match filePath with
    | none => DispatchEffect.failedNoPath
    | some p => DispatchEffect.sandboxRead p

theorem openMarker_ne_nil : openMarker ≠ [] := by decide

theorem closeMarker_ne_nil : closeMarker ≠ [] := by decide

theorem splitFirst_eq_append {n : List Char} :
    ∀ {s a b : List Char}, splitFirst n s = some (a, b) → s = a ++ n ++ b := by
  intro s
  induction s with
  | nil =>
    intro a b h
    by_cases hn : n.isEmpty
    · simp only [splitFirst, hn, if_pos, Option.some.injEq, Prod.mk.injEq] at h
      obtain ⟨ha, hb⟩ := h
      simp [← ha, ← hb, List.isEmpty_iff.mp hn]
    · simp [splitFirst, hn] at h
  | cons c rest ih =>
    intro a b h
    simp only [splitFirst] at h
    split at h
    · rename_i hpre
      obtain ⟨t, ht⟩ := List.isPrefixOf_iff_prefix.mp hpre
      simp only [Option.some.injEq, Prod.mk.injEq] at h
      obtain ⟨ha, hb⟩ := h
      subst ha
      rw [← hb, ← ht, List.drop_left]
      simp
    · rename_i hpre
      obtain ⟨p, hp, hpeq⟩ := Option.map_eq_some'.mp h
      simp only [Prod.mk.injEq] at hpeq
      obtain ⟨ha, hb⟩ := hpeq
      subst ha
      subst hb
      rw [ih hp]
      simp

theorem openMarker_length : openMarker.length = 17 := by decide

theorem closeMarker_length : closeMarker.length = 18 := by decide

theorem scanBlocksF_fuel (f : Nat) :
    ∀ (g : Nat) (s : List Char), s.length ≤ f → s.length ≤ g →
      scanBlocksF f s = scanBlocksF g s := by
  induction f with
  | zero =>
    intro g s hf _
    have hs : s = [] := List.eq_nil_of_length_eq_zero (Nat.le_zero.mp hf)
    subst hs
    have hnil : splitFirst openMarker [] = none := by decide
    cases g with
    | zero => rfl
    | succ g => simp [scanBlocksF, hnil]
  | succ f ihf =>
    intro g s hf hg
    cases g with
    | zero =>
      have hs : s = [] := List.eq_nil_of_length_eq_zero (Nat.le_zero.mp hg)
      subst hs
      have hnil : splitFirst openMarker [] = none := by decide
      simp [scanBlocksF, hnil]
    | succ g =>
      cases h1 : splitFirst openMarker s with
      | none => simp only [scanBlocksF, h1]
      | some pa =>
        cases h2 : splitFirst closeMarker pa.2 with
        | none => simp only [scanBlocksF, h1, h2]
        | some pb =>
          have hs1 := splitFirst_eq_append h1
          have hs2 : pa.2 = pb.1 ++ closeMarker ++ pb.2 := by
            have := splitFirst_eq_append h2
            simpa using this
          have hlen : pb.2.length + 35 ≤ s.length := by
            have e1 := congrArg List.length hs1
            have e2 := congrArg List.length hs2
            simp [List.length_append, openMarker_length, closeMarker_length] at e1 e2
            omega
          have hrec := ihf g pb.2 (by omega) (by omega)
          simp only [scanBlocksF, h1, h2, hrec]

theorem scanBlocksF_eq_scanBlocks {f : Nat} {s : List Char} (h : s.length ≤ f) :
    scanBlocksF f s = scanBlocks s :=
  scanBlocksF_fuel f s.length s h le_rfl

theorem scanBlocks_eq (s : List Char) :
    scanBlocks s =
      match splitFirst openMarker s with
      | none => ([], s)
      | some pa =>
        match splitFirst closeMarker pa.2 with
        | none => ([], s)
        | some pb => (pb.1 :: (scanBlocks pb.2).1, pa.1 ++ (scanBlocks pb.2).2) := by
  cases s with
  | nil =>
    have hnil : splitFirst openMarker [] = none := by decide
    simp [scanBlocks, scanBlocksF, hnil]
  | cons c rest =>
    show scanBlocksF (rest.length + 1) (c :: rest) = _
    cases h1 : splitFirst openMarker (c :: rest) with
    | none => simp only [scanBlocksF, h1]
    | some pa =>
      cases h2 : splitFirst closeMarker pa.2 with
      | none => simp only [scanBlocksF, h1, h2]
      | some pb =>
        have hs1 := splitFirst_eq_append h1
        have hs2 : pa.2 = pb.1 ++ closeMarker ++ pb.2 := by
          have := splitFirst_eq_append h2
          simpa using this
        have hlen : pb.2.length + 35 ≤ (c :: rest).length := by
          have e1 := congrArg List.length hs1
          have e2 := congrArg List.length hs2
          simp [List.length_append, openMarker_length, closeMarker_length] at e1 e2
          simp only [List.length_cons]
          omega
        simp only [scanBlocksF, h1, h2]
        rw [scanBlocksF_eq_scanBlocks (by simp only [List.length_cons] at hlen; omega)]

theorem containsSub_correct {n : List Char} :
    ∀ {h : List Char}, containsSub n h = true ↔ n <:+: h := by
  intro h
  induction h with
  | nil =>
    simp only [containsSub, List.isEmpty_iff, List.infix_nil]
  | cons c rest ih =>
    simp only [containsSub, Bool.or_eq_true, List.isPrefixOf_iff_prefix, ih,
      List.infix_cons_iff]

theorem containsSub_false_iff {n h : List Char} :
    containsSub n h = false ↔ ¬ n <:+: h := by
  rw [← containsSub_correct]
  cases containsSub n h <;> simp

theorem marker_not_prefixOf_append {n a b : List Char}
    (hov : ∀ k, k < n.length → 0 < k → n.drop k ≠ n.take (n.length - k))
    (hne : a ≠ []) (ha : containsSub n a = false) :
    n.isPrefixOf (a ++ n ++ b) = false := by
  rw [Bool.eq_false_iff]
  intro h
  obtain ⟨t, ht⟩ := List.isPrefixOf_iff_prefix.mp h
  have htake : n = List.take n.length (a ++ (n ++ b)) := by
    rw [← List.append_assoc, ← ht, List.take_left]
  rcases le_or_lt n.length a.length with hle | hlt
  · have hta : n = List.take n.length a := by
      rw [htake, List.take_append_eq_append_take]
      have h0 : n.length - a.length = 0 := by omega
      simp [h0]
    have hp : n <+: a := by
      rw [hta]
      exact List.take_prefix _ _
    have : containsSub n a = true := containsSub_correct.mpr hp.isInfix
    simp [ha] at this
  · have e1 : List.take n.length (a ++ (n ++ b))
        = a ++ List.take (n.length - a.length) (n ++ b) := by
      rw [List.take_append_eq_append_take, List.take_of_length_le (le_of_lt hlt)]
    have e2 : List.take (n.length - a.length) (n ++ b)
        = List.take (n.length - a.length) n := by
      rw [List.take_append_eq_append_take]
      have h0 : n.length - a.length - n.length = 0 := by omega
      simp [h0]
    have hm : n = a ++ List.take (n.length - a.length) n :=
      htake.trans (e1.trans (congrArg (a ++ ·) e2))
    have hdrop : n.drop a.length = n.take (n.length - a.length) := by
      conv_lhs => rw [hm]
      rw [List.drop_left]
    exact hov a.length hlt (List.length_pos.mpr hne) hdrop

theorem splitFirst_marker {n : List Char} (hne : n ≠ [])
    (hov : ∀ k, k < n.length → 0 < k → n.drop k ≠ n.take (n.length - k)) :
    ∀ {a b : List Char}, containsSub n a = false →
      splitFirst n (a ++ n ++ b) = some (a, b) := by
  intro a
  induction a with
  | nil =>
    intro b _
    obtain ⟨c, n', rfl⟩ : ∃ c n', n = c :: n' := by
      cases n with
      | nil => exact absurd rfl hne
      | cons c n' => exact ⟨c, n', rfl⟩
    have hshape : ([] : List Char) ++ (c :: n') ++ b = c :: (n' ++ b) := by simp
    rw [hshape]
    simp only [splitFirst]
    rw [if_pos (List.isPrefixOf_iff_prefix.mpr ⟨b, by simp⟩)]
    have hdrop : List.drop (c :: n').length (c :: (n' ++ b)) = b := by
      rw [show c :: (n' ++ b) = (c :: n') ++ b by simp, List.drop_left]
    rw [hdrop]
  | cons c a' ih =>
    intro b ha
    have hstr : n.isPrefixOf ((c :: a') ++ n ++ b) = false :=
      marker_not_prefixOf_append hov (List.cons_ne_nil c a') ha
    simp only [containsSub, Bool.or_eq_false_iff] at ha
    have hgoal : (c :: a') ++ n ++ b = c :: (a' ++ n ++ b) := by simp
    rw [hgoal] at hstr ⊢
    simp only [splitFirst]
    have hstr2 : ¬ (n.isPrefixOf (c :: (a' ++ n ++ b)) = true) := by
      rw [hstr]
      exact Bool.false_ne_true
    rw [if_neg hstr2]
    rw [ih ha.2]
    rfl

theorem splitFirst_none_of_not_contains {n : List Char} (hne : n ≠ []) :
    ∀ {s : List Char}, containsSub n s = false → splitFirst n s = none := by
  intro s
  induction s with
  | nil =>
    intro _
    show (if n.isEmpty then some (([] : List Char), ([] : List Char)) else none) = none
    rw [if_neg (fun h => hne (List.isEmpty_iff.mp h))]
  | cons c rest ih =>
    intro hs
    simp only [containsSub, Bool.or_eq_false_iff] at hs
    simp only [splitFirst]
    rw [if_neg (by simp [hs.1]), ih hs.2]
    rfl

/-- No proper nonempty suffix of the open marker is a prefix of it, so an
occurrence of the marker can never straddle a boundary in front of a literal
copy of the marker. -/
theorem openMarker_no_overlap :
    ∀ k, k < openMarker.length → 0 < k →
      openMarker.drop k ≠ openMarker.take (openMarker.length - k) := by decide

/-- The close marker likewise has no self-overlap. -/
theorem closeMarker_no_overlap :
    ∀ k, k < closeMarker.length → 0 < k →
      closeMarker.drop k ≠ closeMarker.take (closeMarker.length - k) := by decide

/-- Structure of the block scanner on a well-delimited interleaving: it
extracts exactly the payloads, in source order, and the stripped text is the
concatenation of the prose pieces. -/
theorem scanBlocks_buildBuffer :
    ∀ (pieces : List (List Char × List Char)) (tail : List Char),
      (∀ pr ∈ pieces, containsSub openMarker pr.1 = false) →
      (∀ pr ∈ pieces, containsSub closeMarker pr.2 = false) →
      containsSub openMarker tail = false →
      scanBlocks (buildBuffer pieces tail)
        = (pieces.map Prod.snd, (pieces.map Prod.fst).foldr (· ++ ·) tail) := by
  intro pieces
  induction pieces with
  | nil =>
    intro tail _ _ htail
    simp only [buildBuffer]
    rw [scanBlocks_eq, splitFirst_none_of_not_contains openMarker_ne_nil htail]
    simp
  | cons pr rest ih =>
    intro tail h1 h2 htail
    obtain ⟨prose, payload⟩ := pr
    have heq : buildBuffer ((prose, payload) :: rest) tail
        = prose ++ openMarker ++ (payload ++ closeMarker ++ buildBuffer rest tail) := by
      simp [buildBuffer]
    rw [scanBlocks_eq, heq]
    rw [splitFirst_marker openMarker_ne_nil openMarker_no_overlap
      (h1 (prose, payload) (by simp))]
    show (match splitFirst closeMarker (payload ++ closeMarker ++ buildBuffer rest tail) with
      | none => ([], prose ++ openMarker ++ (payload ++ closeMarker ++ buildBuffer rest tail))
      | some pb =>
        (pb.1 :: (scanBlocks pb.2).1, prose ++ (scanBlocks pb.2).2)) = _
    rw [splitFirst_marker closeMarker_ne_nil closeMarker_no_overlap
      (h2 (prose, payload) (by simp))]
    show (payload :: (scanBlocks (buildBuffer rest tail)).1,
      prose ++ (scanBlocks (buildBuffer rest tail)).2) = _
    rw [ih tail (fun q hq => h1 q (by simp [hq])) (fun q hq => h2 q (by simp [hq])) htail]
    simp

theorem ledgerGet_ledgerSet_ne {l : Ledger} {id id' : String} {e : LedgerEntry}
    (hne : id' ≠ id) : ledgerGet (ledgerSet l id e) id' = ledgerGet l id' := by
  unfold ledgerSet
  by_cases hany : l.any (fun p => p.1 == id) = true
  · rw [if_pos hany]
    unfold ledgerGet
    congr 1
    clear hany
    induction l with
    | nil => rfl
    | cons hd tl ih =>
      by_cases hhd : (hd.1 == id) = true
      · have h1 : hd.1 = id := eq_of_beq hhd
        have h2 : (id == id') = false := beq_eq_false_iff_ne.mpr (Ne.symm hne)
        have h3 : (hd.1 == id') = false := by
          rw [h1]
          exact h2
        simp only [List.map_cons, if_pos hhd, List.find?_cons, h2, h3]
        exact ih
      · simp only [List.map_cons, if_neg hhd, List.find?_cons]
        cases hp : (hd.1 == id') with
        | true => rfl
        | false => exact ih
  · rw [if_neg hany]
    unfold ledgerGet
    rw [List.find?_append]
    have hsingle : List.find? (fun p => p.1 == id') [(id, e)] = none := by
      simp [List.find?_cons, beq_eq_false_iff_ne.mpr (Ne.symm hne)]
    rw [hsingle]
    cases List.find? (fun p => p.1 == id') l <;> rfl

theorem dispatchActions_skips_nonpending {id : String} {e : LedgerEntry}
    (hstat : e.status ≠ ActStatus.pending) :
    ∀ (acts : List ActionT) (l : Ledger), ledgerGet l id = some e →
      ((dispatchActions l acts).2.all (fun a => a.id != id)) = true := by
  intro acts
  induction acts with
  | nil => intro l _; rfl
  | cons a rest ih =>
    intro l hget
    by_cases hid : a.id = id
    · have hdisp : shouldDispatch l a = false := by
        unfold shouldDispatch
        rw [hid, hget]
        exact beq_eq_false_iff_ne.mpr hstat
      simp only [dispatchActions, hdisp, Bool.false_eq_true, if_false]
      exact ih l hget
    · by_cases hdisp : shouldDispatch l a = true
      · by_cases hkind : knownKinds.contains a.kind = true
        · simp only [dispatchActions, hdisp, if_true, hkind]
          have hget2 : ledgerGet
              (ledgerSet l a.id ⟨ActStatus.inProgress, a.immediate⟩) id = some e := by
            rw [ledgerGet_ledgerSet_ne (fun h => hid h.symm)]
            exact hget
          have hr := ih _ hget2
          simp only [List.all_cons, hr, Bool.and_true]
          exact bne_iff_ne.mpr hid
        · simp only [dispatchActions, hdisp, if_true, hkind, Bool.false_eq_true, if_false]
          exact ih l hget
      · have hdisp2 : shouldDispatch l a = false := by
          cases h : shouldDispatch l a
          · rfl
          · exact absurd h hdisp
        simp only [dispatchActions, hdisp2, Bool.false_eq_true, if_false]
        exact ih l hget

theorem filterMap_eq_of_map_eq_some {α β : Type} (f : α → Option β) :
    ∀ (xs : List α) (ys : List β), xs.map f = ys.map some →
      xs.filterMap f = ys := by
  intro xs
  induction xs with
  | nil =>
    intro ys h
    cases ys with
    | nil => rfl
    | cons y ys => simp at h
  | cons x xs ih =>
    intro ys h
    cases ys with
    | nil => simp at h
    | cons y ys =>
      simp only [List.map_cons, List.cons.injEq] at h
      obtain ⟨h1, h2⟩ := h
      simp [List.filterMap_cons, h1, ih ys h2]

theorem dispatchActions_fresh :
    ∀ (acts : List ActionT) (l : Ledger),
      (∀ a ∈ acts, knownKinds.contains a.kind = true) →
      (∀ a ∈ acts, ledgerGet l a.id = none) →
      (acts.map ActionT.id).Nodup →
      (dispatchActions l acts).2 = acts := by
  intro acts
  induction acts with
  | nil => intro l _ _ _; rfl
  | cons a rest ih =>
    intro l hkind hfresh hnodup
    have hdisp : shouldDispatch l a = true := by
      unfold shouldDispatch
      rw [hfresh a (by simp)]
    simp only [dispatchActions, hdisp, if_true, hkind a (by simp)]
    simp only [List.map_cons, List.nodup_cons] at hnodup
    have hrest : (dispatchActions
        (ledgerSet l a.id ⟨ActStatus.inProgress, a.immediate⟩) rest).2 = rest := by
      apply ih
      · intro b hb
        exact hkind b (by simp [hb])
      · intro b hb
        have hbne : b.id ≠ a.id := by
          intro hcontra
          exact hnodup.1 (hcontra ▸ List.mem_map_of_mem ActionT.id hb)
        rw [ledgerGet_ledgerSet_ne hbne]
        exact hfresh b (by simp [hb])
      · exact hnodup.2
    simp [hrest]

theorem buildBuffer_guard_false (pieces : List (List Char × List Char))
    (tail : List Char) (htail : containsSub openMarker tail = false) :
    (containsSub openMarker (buildBuffer pieces tail)
      && !containsSub closeMarker (buildBuffer pieces tail)) = false := by
  cases pieces with
  | nil =>
    simp only [buildBuffer]
    rw [htail]
    rfl
  | cons pr rest =>
    obtain ⟨prose, payload⟩ := pr
    have hc : containsSub closeMarker
        (buildBuffer ((prose, payload) :: rest) tail) = true := by
      refine containsSub_correct.mpr
        ⟨prose ++ openMarker ++ payload, buildBuffer rest tail, ?_⟩
      simp [buildBuffer, List.append_assoc]
    rw [hc]
    simp

theorem displayedText_of_guard_false {s : List Char}
    (h : (containsSub openMarker s && !containsSub closeMarker s) = false) :
    displayedText s = stripBlocks s := by
  unfold displayedText
  rw [if_neg (by rw [h]; exact Bool.false_ne_true)]

theorem parseActionsFromChunk_of_guard_false
    (decode : List Char → Option ActionT) (l : Ledger) {s : List Char}
    (h : (containsSub openMarker s && !containsSub closeMarker s) = false) :
    parseActionsFromChunk decode l s =
      ⟨(dispatchActions l ((extractPayloads s).filterMap decode)).1,
       (dispatchActions l ((extractPayloads s).filterMap decode)).2,
       stripBlocks s⟩ := by
  unfold parseActionsFromChunk
  rw [if_neg (by rw [h]; exact Bool.false_ne_true)]
  rw [displayedText_of_guard_false h]

/-- C1: the spec requires that, for a buffer containing an open marker with no
matching close marker, the displayable text end strictly before the open
marker.  The code (PromptEditor.tsx lines 319-326) instead returns
`summedChunk.substring(startIndex)` — the suffix starting AT the marker — so
the display still contains the marker and the truncated block while the prose
before the marker is dropped; and when the marker sits at index 0 the falsy
check `if (startIndex)` returns the entire buffer.  This theorem evaluates
the embedded parse function at such a buffer and shows both effects. -/
theorem c1_incomplete_block_is_displayed :
    (parseActionsFromChunk (fun _ => none) []
        "Hello <x-system-action>id-a1".toList).display
      = "<x-system-action>id-a1".toList
    ∧ containsSub openMarker
        ((parseActionsFromChunk (fun _ => none) []
          "Hello <x-system-action>id-a1".toList).display) = true
    ∧ (parseActionsFromChunk (fun _ => none) []
        "<x-system-action>id-a1".toList).display
      = "<x-system-action>id-a1".toList :=
  ⟨by decide, by decide, by decide⟩

/-- C2: once an action id is recorded in the ledger in a terminal state
(`success` or `error`), re-running the parse function on any buffer — in
particular a replay of the same chunks — dispatches no handler for that id:
the dedup guard (PromptEditor.tsx lines 335-337) skips every occurrence whose
recorded status is not `pending`, so no second sandbox side effect occurs. -/
theorem c2_terminal_id_never_redispatched
    (decode : List Char → Option ActionT) (l : Ledger) (buf : List Char)
    (id : String) (e : LedgerEntry)
    (hget : ledgerGet l id = some e)
    (hterm : e.status = ActStatus.success ∨ e.status = ActStatus.error) :
    ((parseActionsFromChunk decode l buf).dispatched.all
      (fun a => a.id != id)) = true := by
  have hstat : e.status ≠ ActStatus.pending := by
    rcases hterm with h | h <;> simp [h]
  unfold parseActionsFromChunk
  by_cases hg : (containsSub openMarker buf && !containsSub closeMarker buf) = true
  · rw [if_pos hg]
    rfl
  · rw [if_neg hg]
    exact dispatchActions_skips_nonpending hstat _ l hget

theorem c2_terminal_id_never_redispatched_witness :
    ((parseActionsFromChunk witnessDecode [("a1", ⟨ActStatus.success, false⟩)]
        "x<x-system-action>P1</x-system-action>y".toList).dispatched.all
      (fun a => a.id != "a1")) = true :=
  c2_terminal_id_never_redispatched witnessDecode
    [("a1", ⟨ActStatus.success, false⟩)]
    "x<x-system-action>P1</x-system-action>y".toList
    "a1" ⟨ActStatus.success, false⟩ (by decide) (Or.inl rfl)

/-- C4: for a buffer consisting of complete, well-delimited action blocks
interleaved with marker-free prose, whose payloads all decode to actions of
known kinds with fresh, pairwise distinct ids, the parse function dispatches
exactly the decoded actions, in source order, and returns the prose with all
blocks removed. -/
theorem c4_blocks_dispatched_in_order
    (decode : List Char → Option ActionT) (l : Ledger)
    (pieces : List (List Char × List Char)) (tail : List Char)
    (as : List ActionT)
    (hprose : ∀ pr ∈ pieces, containsSub openMarker pr.1 = false)
    (hpayload : ∀ pr ∈ pieces, containsSub closeMarker pr.2 = false)
    (htail : containsSub openMarker tail = false)
    (hdec : pieces.map (fun pr => decode pr.2) = as.map some)
    (hkind : ∀ a ∈ as, knownKinds.contains a.kind = true)
    (hfresh : ∀ a ∈ as, ledgerGet l a.id = none)
    (hids : (as.map ActionT.id).Nodup) :
    (parseActionsFromChunk decode l (buildBuffer pieces tail)).dispatched = as
    ∧ (parseActionsFromChunk decode l (buildBuffer pieces tail)).display
        = (pieces.map Prod.fst).foldr (· ++ ·) tail
    ∧ as.length = pieces.length := by
  have hguard := buildBuffer_guard_false pieces tail htail
  have hscan := scanBlocks_buildBuffer pieces tail hprose hpayload htail
  have hpay : extractPayloads (buildBuffer pieces tail) = pieces.map Prod.snd := by
    unfold extractPayloads
    rw [hscan]
  have hstrip : stripBlocks (buildBuffer pieces tail)
      = (pieces.map Prod.fst).foldr (· ++ ·) tail := by
    unfold stripBlocks
    rw [hscan]
  have hfm : (pieces.map Prod.snd).filterMap decode = as := by
    apply filterMap_eq_of_map_eq_some
    rw [List.map_map]
    exact hdec
  rw [parseActionsFromChunk_of_guard_false decode l hguard]
  refine ⟨?_, hstrip, ?_⟩
  · show (dispatchActions l ((extractPayloads _).filterMap decode)).2 = as
    rw [hpay, hfm]
    exact dispatchActions_fresh as l hkind hfresh hids
  · have hlen := congrArg List.length hdec
    simp only [List.length_map] at hlen
    exact hlen.symm

theorem c4_blocks_dispatched_in_order_witness :
    (parseActionsFromChunk witnessDecode []
        (buildBuffer [("Hi ".toList, "P1".toList), (" mid ".toList, "P2".toList)]
          " bye".toList)).dispatched
      = [⟨"a1", "write_file", false⟩, ⟨"a2", "run_command", false⟩]
    ∧ (parseActionsFromChunk witnessDecode []
        (buildBuffer [("Hi ".toList, "P1".toList), (" mid ".toList, "P2".toList)]
          " bye".toList)).display
        = ([("Hi ".toList, "P1".toList), (" mid ".toList, "P2".toList)].map
            Prod.fst).foldr (· ++ ·) " bye".toList
    ∧ ([⟨"a1", "write_file", false⟩, ⟨"a2", "run_command", false⟩] : List ActionT).length
        = [("Hi ".toList, "P1".toList), (" mid ".toList, "P2".toList)].length :=
  c4_blocks_dispatched_in_order witnessDecode [] _ _ _
    (by decide) (by decide) (by decide) (by decide) (by decide) (by decide) (by decide)

/-- C3: the claim states that for every streaming invocation of either
provider `onEnd` and `onError` are mutually exclusive and called exactly
once.  The DeepSeek variant is an unfinished stub that never contacts the
backend and unconditionally invokes `onChunk("test")`, then `onError`, then
`onEnd` — both terminal callbacks fire in the same run; and the Google
variant invokes `onError` twice on an invalid-API-key failure because the
first call is not followed by a return. -/
theorem c3_deepseek_stream_fires_both_terminal_callbacks :
    deepseekGetChatCompletionStream [] []
      = [StreamEvent.chunk "test", StreamEvent.errorEvent "Invalid Error",
         StreamEvent.ended]
    ∧ StreamEvent.ended ∈ deepseekGetChatCompletionStream [] []
    ∧ StreamEvent.errorEvent "Invalid Error" ∈ deepseekGetChatCompletionStream [] []
    ∧ googleGetChatCompletionStream (GoogleStreamOutcome.failure true "API key not valid")
      = [StreamEvent.errorEvent "Google AI API key is invalid or missing.",
         StreamEvent.errorEvent "Google AI Error: API key not valid"] := by
  refine ⟨rfl, ?_, ?_, rfl⟩ <;> simp [deepseekGetChatCompletionStream]

/-- C6: the claim states that every run_command action reaching a terminal
state triggers conversational re-entry regardless of `immediate`.  That holds
on the success path (even for a nonzero exit code), but on the thrown path —
a terminal `error` state whose ledger entry still records
`isCommandOutput: true` — the message forwarded to
`addActionResponseToMessages` omits the `isCommandOutput` field, so with
`immediate = false` no re-entry happens and the terminal command result is
silently dropped. -/
theorem c6_failed_command_reentry_dropped :
    reentryTriggered false
        (runCommandMessage (SpawnOutcome.thrown "WebContainer is not initialized"))
      = false
    ∧ runCommandLedgerIsCommandOutput
        (SpawnOutcome.thrown "WebContainer is not initialized") = true
    ∧ runCommandStatus (SpawnOutcome.thrown "WebContainer is not initialized")
      = ActStatus.error
    ∧ reentryTriggered false (runCommandMessage (SpawnOutcome.ok "" 1)) = true :=
  ⟨rfl, rfl, rfl, rfl⟩

/-- C7: the claim (and the code comment "Use the most recent project
context") says retrieval is most-recent-entry-wins.  JS Maps iterate in
insertion order and `contextKeys[0]` is therefore the OLDEST cached project
prompt: after caching two prompts with distinct 50-character prefixes,
`generateFileContent` is enriched with the first one, not the second. -/
theorem c7_cache_retrieves_oldest_entry :
    retrieveProjectContext
        (cacheProjectPrompt (cacheProjectPrompt [] "build a todo app")
          "build a chess engine")
      = "build a todo app"
    ∧ "build a todo app" ≠ "build a chess engine" :=
  ⟨by decide, by decide⟩

/-- C9 helper: the loop invariant of the stream read loop — after every
iteration the stored content is the parse display of the accumulated
buffer. -/
theorem streamReadLoop_content (chunks : List (List Char)) :
    ∀ (acc content : List Char), content = displayedText acc →
      (streamReadLoop chunks acc content).2
        = displayedText (chunks.foldl (fun a c => a ++ cleanChunk c) acc) := by
  induction chunks with
  | nil =>
    intro acc content h
    simpa [streamReadLoop] using h
  | cons c rest ih =>
    intro acc content h
    simp only [streamReadLoop, List.foldl_cons]
    exact ih _ _ rfl

/-- C9 (amended): the content stored for the assistant message after the last
chunk equals the parse display of the accumulated buffer — the concatenation
of the per-chunk cleaned chunks.  (The cleaning itself is applied per chunk,
so the accumulated buffer, and hence the display, may depend on the chunk
boundaries; see the counterexample.) -/
theorem c9_final_content_is_parse_of_accumulated_buffer
    (chunks : List (List Char)) :
    (streamReadLoop chunks [] []).2
      = displayedText (chunks.foldl (fun a c => a ++ cleanChunk c) []) :=
  streamReadLoop_content chunks [] [] (by decide)

/-- C9 (counterexample): the final display is NOT a function of the full raw
response text alone — two splits of the same text "data: hi" yield different
final contents, because `replace('data: ', '')` is applied per chunk: as a
single chunk the prefix is stripped, split as ["da", "ta: hi"] nothing is. -/
theorem c9_chunk_boundary_sensitivity :
    (streamReadLoop ["data: hi".toList] [] []).2
      ≠ (streamReadLoop ["da".toList, "ta: hi".toList] [] []).2 := by decide

theorem strToList_append (s t : String) :
    (s ++ t).toList = s.toList ++ t.toList := by
  simp [String.toList]

theorem genErrorComment_starts_with (filePath m : String) :
    (("// Error generating content for " ++ filePath).toList.isPrefixOf
      (genErrorComment filePath m).toList) = true := by
  apply List.isPrefixOf_iff_prefix.mpr
  refine ⟨("\n// " ++ m ++ "\n").toList, ?_⟩
  simp only [genErrorComment, strToList_append, List.append_assoc]

/-- C10: the store's `generateFileContent` never rejects — every failure
outcome resolves with a string beginning
`// Error generating content for <filePath>`, materializing the failure as
comment text inside the generated file. -/
theorem c10_failure_materialized_as_comment
    (filePath : String) (o : GenOutcome)
    (hfail : ∀ c, o ≠ GenOutcome.okContent c) :
    (("// Error generating content for " ++ filePath).toList.isPrefixOf
      (storeGenerateFileContent filePath o).toList) = true := by
  cases o with
  | httpErrorJsonError e => exact genErrorComment_starts_with filePath e
  | httpErrorJsonNoError st => exact genErrorComment_starts_with filePath _
  | httpErrorBodyNotJson st => exact genErrorComment_starts_with filePath _
  | okBodyNotJson pm => exact genErrorComment_starts_with filePath pm
  | okMissingContent => exact genErrorComment_starts_with filePath _
  | okContent c => exact absurd rfl (hfail c)
  | fetchThrow msg => exact genErrorComment_starts_with filePath msg

theorem c10_failure_materialized_as_comment_witness :
    (("// Error generating content for " ++ "src/index.ts").toList.isPrefixOf
      (storeGenerateFileContent "src/index.ts"
        (GenOutcome.fetchThrow "Failed to fetch")).toList) = true :=
  c10_failure_materialized_as_comment "src/index.ts"
    (GenOutcome.fetchThrow "Failed to fetch") (fun c h => nomatch h)

/-- C5 (counterexample): the action dispatcher performs the sandbox read for
the escaping path "../../etc/passwd" — no access-denied rejection happens
before the sandbox call, contradicting the claim as stated for the
dispatcher. -/
theorem c5_dispatcher_reads_escaping_path :
    readFileActionEffect true (some "../../etc/passwd")
      = DispatchEffect.sandboxRead "../../etc/passwd" := rfl

/-- C5 (amended): path validation exists only in the server-side tool
executors: `readFileTool` rejects a path whose resolution escapes the
workspace root with an access-denied error before any filesystem call, and
never reaches the filesystem for a sensitive directory; the client-side
dispatcher handler `readFileAction` forwards any present path to the
WebContainer sandbox unvalidated. -/
theorem c5_validation_only_in_server_tools :
    (∀ root rel : List String,
      startsWithStr (joinPath root) (joinPath (resolveSegs root rel)) = false →
      readFileTool root rel = ToolDecision.deniedTraversal)
    ∧ (∀ root rel abs : List String,
        sensitiveRel rel = true → readFileTool root rel ≠ ToolDecision.readCall abs)
    ∧ (∀ p : String,
        readFileActionEffect true (some p) = DispatchEffect.sandboxRead p) := by
  refine ⟨?_, ?_, ?_⟩
  · intro root rel h
    unfold readFileTool
    rw [if_pos h]
  · intro root rel abs h
    unfold readFileTool
    by_cases h1 : startsWithStr (joinPath root) (joinPath (resolveSegs root rel)) = false
    · rw [if_pos h1]
      exact fun hc => ToolDecision.noConfusion hc
    · rw [if_neg h1, if_pos h]
      exact fun hc => ToolDecision.noConfusion hc
  · intro p
    rfl

theorem c5_validation_only_in_server_tools_witness :
    readFileTool ["workspace"] ["..", "..", "etc", "passwd"]
      = ToolDecision.deniedTraversal :=
  c5_validation_only_in_server_tools.1 ["workspace"] ["..", "..", "etc", "passwd"]
    (by decide)

/-- C8 (counterexample): starting idle, a user send starts a stream, and an
immediate-flagged action resolving mid-stream issues a second completion
request at once — two streams are active simultaneously for the same
conversation, contradicting the claimed serialization. -/
theorem c8_overlapping_completion_requests :
    (actionResolved true ⟨true, none⟩
        (userSendRequest true ⟨false, 0, 0⟩)).activeStreams = 2 := rfl

/-- C8 (amended): user-initiated sends are guarded only by `isChatLoading`
(which is cleared before the stream is read), while action re-entry issues
its completion request unconditionally whenever the re-entry condition holds,
regardless of any stream in progress — so completion requests of one
conversation can overlap. -/
theorem c8_reentry_not_serialized :
    (∀ s : ConvState, s.chatLoading = true →
      ∀ hasInput, userSendRequest hasInput s = s)
    ∧ (∀ (s : ConvState) (b : Bool) (m : ActionMsg), reentryTriggered b m = true →
        (actionResolved b m s).requestsStarted = s.requestsStarted + 1
        ∧ (actionResolved b m s).activeStreams = s.activeStreams + 1) := by
  constructor
  · intro s h hasInput
    simp [userSendRequest, h]
  · intro s b m h
    unfold actionResolved
    rw [if_pos h]
    exact ⟨rfl, rfl⟩

theorem c8_reentry_not_serialized_witness :
    userSendRequest true ⟨true, 1, 1⟩ = ⟨true, 1, 1⟩
    ∧ (actionResolved false ⟨true, some true⟩ ⟨false, 1, 1⟩).requestsStarted
        = 1 + 1 :=
  ⟨c8_reentry_not_serialized.1 ⟨true, 1, 1⟩ rfl true,
   (c8_reentry_not_serialized.2 ⟨false, 1, 1⟩ false ⟨true, some true⟩ (by decide)).1⟩

end CodeDev
